import Mathlib

/-!
Shallow embedding of the physics-configuration resolution logic of
`src/PhysicsList.cxx` (class `PhysicsList`), together with theorems about
the properties of that logic.

The embedding models the observable behaviour of:
  * `PhysicsList::PhysicsList` (constructor: default cut, energy window),
  * `PhysicsList::InitializePhysicsLists` (module selection, EM exclusivity),
  * `PhysicsList::ConstructParticle` (phase-1 particle construction),
  * `PhysicsList::ConstructProcess` (phase-2 process construction, EM
    options, radioactive-decay options, step limiters, ion sweep),
  * `PhysicsList::SetCuts` (production cuts).

Interactions with the external engine (Geant4) and the external
configuration object (`TRestGeant4PhysicsLists`) are modelled as explicit
event traces and as fields of a configuration record.  Machine reals
(`G4double`) are modelled as rationals: the code performs no arithmetic on
them beyond multiplying by fixed unit constants, so values are recorded in
the source's units (mm for cuts, keV for the energy window).
-/

namespace RestG4

/-- REST verbosity levels of `TRestStringOutput::REST_Verbose_Level`,
as ordinals: Silent = 0, Essential = 1, Info = 2, Debug = 3, Extreme = 4. -/
def REST_Essential : Nat := 1

/-- Ordinal of `REST_Verbose_Level::REST_Debug`. -/
def REST_Debug : Nat := 3

/-- The view of the external configuration object
`TRestGeant4PhysicsLists` that `PhysicsList.cxx` reads.  Per-species cut
overrides are `Option ℚ`:

Modelled from the spec: the external accessors `GetCutForGamma` … are not
part of this repository; per the spec, an absent override leaves the
universal default cut in force, so each accessor is modelled as the
declared override when present and the universal default otherwise. -/
structure RestPhysicsLists where
  physicsLists : List String
  options : List (String × String × String)
  verboseLevel : Nat
  ionStepList : List String
  minEnergyProductionCuts : ℚ
  maxEnergyProductionCuts : ℚ
  cutForGamma : Option ℚ
  cutForElectron : Option ℚ
  cutForPositron : Option ℚ
  cutForMuon : Option ℚ
  cutForNeutron : Option ℚ
deriving DecidableEq

/-- `TRestGeant4PhysicsLists::FindPhysicsList(name)`: the index of `name`
in the ordered list of enabled physics-list names, or `-1` when absent
(the C++ caller compares this `Int` with `>= 0`, or — at one call site —
uses it directly as a truth value). -/
def findPhysicsList (cfg : RestPhysicsLists) (name : String) : Int :=
  match cfg.physicsLists.findIdx? (fun s => s == name) with
  | some i => (i : Int)
  | none => -1

/-- The test `FindPhysicsList(name) >= 0` used by every selection branch
of `InitializePhysicsLists`. -/
def enabled (cfg : RestPhysicsLists) (name : String) : Bool :=
  decide (0 ≤ findPhysicsList cfg name)

/-- `TRestGeant4PhysicsLists::GetPhysicsListOptionValue(list, key, dflt)`.

Modelled from the spec: the accessor is external to this repository; it
returns the declared option value for the `(physics list, key)` pair and
the supplied default when the option is absent. -/
def getPhysicsListOptionValue (cfg : RestPhysicsLists)
    (physicsList key dflt : String) : String :=
  match cfg.options.find? (fun o => o.1 == physicsList && o.2.1 == key) with
  | some o => o.2.2
  | none => dflt

/-- `StringToBool` from the external REST string helpers.

Modelled from the spec: external string-to-boolean conversion mapping the
literal "true" (and common synonyms) to `true` and anything else,
including "false", to `false`. -/
def StringToBool (s : String) : Bool :=
  s == "true" || s == "TRUE" || s == "True" || s == "1" || s == "on" || s == "ON"

/-- The result of the hard `exit(1)` taken on an EM exclusivity
violation: the process exit code and the diagnostic printed to `cerr`. -/
structure FatalExit where
  exitCode : Nat
  message : String
deriving DecidableEq

/-- The fields of `PhysicsList` that `InitializePhysicsLists` fills in:
whether the decay / radioactive-decay constructors were allocated, the
selected EM physics list (its canonical name, = `fEmPhysicsListName`),
the ordered hadronic constructor names, and the warnings emitted. -/
structure PhysicsListState where
  fDecPhysicsList : Bool
  fRadDecPhysicsList : Bool
  fEmPhysicsList : Option String
  fHadronPhys : List String
  warnings : List String
deriving DecidableEq

/-- The four EM physics-list names tested, in the order of the four
`if` blocks of `InitializePhysicsLists` (lines 92–127). -/
def emListNames : List String :=
  ["G4EmLivermorePhysics", "G4EmPenelopePhysics",
   "G4EmStandardPhysics_option3", "G4EmStandardPhysics_option4"]

/-- The five hadronic physics-list names tested, in the order of the five
`if` blocks of `InitializePhysicsLists` (lines 139–158). -/
def hadronicListNames : List String :=
  ["G4HadronPhysicsQGSP_BIC_HP", "G4IonBinaryCascadePhysics",
   "G4HadronElasticPhysicsHP", "G4NeutronTrackingCut", "G4EmExtraPhysics"]

/-- One EM selection block (lines 94–100 and its three clones): if `name`
is enabled, keep it as `fEmPhysicsList` when that slot is still empty and
increment `emCounter` unconditionally. -/
def emStep (cfg : RestPhysicsLists) (acc : Option String × Nat)
    (name : String) : Option String × Nat :=
  if enabled cfg name then
    (match acc.1 with
     | none => some name
     | some m => some m, acc.2 + 1)
  else acc

/-- The EM selection pass: the four blocks run in sequence, yielding the
selected list (first enabled name) and the match count `emCounter`. -/
def emResolve (cfg : RestPhysicsLists) : Option String × Nat :=
  emListNames.foldl (emStep cfg) (none, 0)

/-- The diagnostic printed to `cerr` before `exit(1)` (line 135). -/
def emFatalMessage : String := "PhysicsList: More than 1 EM PhysicsList enabled."

/-- The verbosity-gated warning for zero EM physics lists (line 131). -/
def noEmWarning : String := "PhysicsList: No EM physics list has been enabled"

/-- `PhysicsList::InitializePhysicsLists` (lines 76–161).  Selects the
decay, radioactive-decay, EM and hadronic physics lists from the
configuration.  The `exit(1)` on more than one enabled EM list is
modelled as an `Except.error` carrying the exit code and diagnostic. -/
def initializePhysicsLists (cfg : RestPhysicsLists) :
    Except FatalExit PhysicsListState :=
  let fDec := enabled cfg "G4DecayPhysics"
  let fRadDec := enabled cfg "G4RadioactiveDecayPhysics"
  let em := emResolve cfg
  let warnings :=
    if cfg.verboseLevel ≥ REST_Essential && em.2 == 0 then [noEmWarning] else []
  if em.2 > 1 then
    Except.error { exitCode := 1, message := emFatalMessage }
  else
    Except.ok
      { fDecPhysicsList := fDec
        fRadDecPhysicsList := fRadDec
        fEmPhysicsList := em.1
        fHadronPhys := hadronicListNames.filter (enabled cfg)
        warnings := warnings }

/-- Whether `needle` occurs as a contiguous substring of `hay`, on the
underlying character lists (used to formalise "the diagnostic names a
module"). -/
def charsContain (needle hay : List Char) : Bool :=
  match hay with
  | [] => needle.isEmpty
  | _ :: t => needle.isPrefixOf hay || charsContain needle t

/-- Whether the string `name` occurs inside the diagnostic `diag`. -/
def mentions (diag name : String) : Bool :=
  charsContain name.data diag.data

/-- `defaultCutValue = 0.1 * mm` (line 55), recorded in mm. -/
def defaultCutValue : ℚ := 1 / 10

/-- What `PhysicsList::PhysicsList` (lines 44–65) does, beyond calling
`InitializePhysicsLists`: it sets the default cut and hands the
configured production-cut energy window, unchanged (scaled to keV), to
`G4ProductionCutsTable::SetEnergyRange`. -/
structure CtorResult where
  defaultCut : ℚ
  energyRange : ℚ × ℚ
  init : Except FatalExit PhysicsListState

/-- `PhysicsList::PhysicsList` (lines 44–65): default cut 0.1 mm, energy
window forwarded as given to `SetEnergyRange` (lines 60–62, no
validation), then `InitializePhysicsLists`. -/
def physicsListCtor (cfg : RestPhysicsLists) : CtorResult :=
  { defaultCut := defaultCutValue
    energyRange := (cfg.minEnergyProductionCuts, cfg.maxEnergyProductionCuts)
    init := initializePhysicsLists cfg }

/-! ### Production cuts (`PhysicsList::SetCuts`, lines 303–312) -/

/-- `GetCutForGamma` (external accessor; see `RestPhysicsLists`). -/
def getCutForGamma (cfg : RestPhysicsLists) : ℚ := cfg.cutForGamma.getD defaultCutValue

/-- `GetCutForElectron` (external accessor; see `RestPhysicsLists`). -/
def getCutForElectron (cfg : RestPhysicsLists) : ℚ := cfg.cutForElectron.getD defaultCutValue

/-- `GetCutForPositron` (external accessor; see `RestPhysicsLists`). -/
def getCutForPositron (cfg : RestPhysicsLists) : ℚ := cfg.cutForPositron.getD defaultCutValue

/-- `GetCutForMuon` (external accessor; see `RestPhysicsLists`). -/
def getCutForMuon (cfg : RestPhysicsLists) : ℚ := cfg.cutForMuon.getD defaultCutValue

/-- `GetCutForNeutron` (external accessor; see `RestPhysicsLists`). -/
def getCutForNeutron (cfg : RestPhysicsLists) : ℚ := cfg.cutForNeutron.getD defaultCutValue

/-- The six `SetCutValue` calls of `SetCuts` (lines 306–311), in source
order, as (species name, cut value in mm) pairs. -/
def setCutValueCalls (cfg : RestPhysicsLists) : List (String × ℚ) :=
  [("gamma", getCutForGamma cfg),
   ("e-", getCutForElectron cfg),
   ("e+", getCutForPositron cfg),
   ("mu+", getCutForMuon cfg),
   ("mu-", getCutForMuon cfg),
   ("neutron", getCutForNeutron cfg)]

/-- The per-species cut table after `SetCuts` runs: `SetCutsWithDefault`
(line 304) assigns `defaultCutValue` to every species, then the six
`SetCutValue` calls override individual species in order. -/
def cutTable (cfg : RestPhysicsLists) : String → ℚ :=
  (setCutValueCalls cfg).foldl
    (fun t p => fun s => if s == p.1 then p.2 else t s)
    (fun _ => defaultCutValue)

/-! ### Phase 1: `PhysicsList::ConstructParticle` (lines 163–183) -/

/-- Events of the particle-construction phase. -/
inductive PEvent
  | geantino
  | decayParticles
  | emParticles (name : String)
  | radDecayParticles
  | hadronicParticles (name : String)
deriving DecidableEq

/-- `PhysicsList::ConstructParticle` (lines 163–183) as an ordered event
trace: the geantino pseudo-particle, then each present physics list's
`ConstructParticle`, in source order. -/
def constructParticle (st : PhysicsListState) : List PEvent :=
  [PEvent.geantino]
  ++ (if st.fDecPhysicsList then [PEvent.decayParticles] else [])
  ++ (match st.fEmPhysicsList with
      | some name => [PEvent.emParticles name]
      | none => [])
  ++ (if st.fRadDecPhysicsList then [PEvent.radDecayParticles] else [])
  ++ st.fHadronPhys.map PEvent.hadronicParticles

/-! ### Phase 2: `PhysicsList::ConstructProcess` (lines 185–301) -/

/-- Events of the process-construction phase, in the order the code
performs them.  `stepLimiter p tag` attaches `G4StepLimiter(tag)` to the
named particle; `ionStepLimiter Z A` attaches `G4StepLimiter("ionStep")`
to the ground-state ion `GetIon(Z, A, 0)`. -/
inductive Event
  | addTransportation
  | emProcesses (name : String)
  | emAddModels
  | applyCommand (cmd : String)
  | decayProcesses
  | radDecayProcesses
  | hadronicProcesses (name : String)
  | setDecayTimeThreshold
  | setICM (b : Bool)
  | setARM (b : Bool)
  | warning (msg : String)
  | stepLimiter (particle tag : String)
  | ionStepLimiter (Z A : Nat)
deriving DecidableEq

/-- The EM block of `ConstructProcess` (lines 189–218): construct EM
processes, add configured models, force fluo/auger/pixe on, then apply
the configured pixe, fluo, auger options (defaults "false", "true",
"true") in that order. -/
def emBlock (cfg : RestPhysicsLists) (emName : String) : List Event :=
  [Event.emProcesses emName, Event.emAddModels,
   Event.applyCommand "/process/em/fluo true",
   Event.applyCommand "/process/em/auger true",
   Event.applyCommand "/process/em/pixe true",
   Event.applyCommand ("/process/em/pixe " ++
     (if StringToBool (getPhysicsListOptionValue cfg emName "pixe" "false")
      then "true" else "false")),
   Event.applyCommand ("/process/em/fluo " ++
     (if StringToBool (getPhysicsListOptionValue cfg emName "fluo" "true")
      then "true" else "false")),
   Event.applyCommand ("/process/em/auger " ++
     (if StringToBool (getPhysicsListOptionValue cfg emName "auger" "true")
      then "true" else "false"))]

/-- The ICM option handling (lines 245–252): apply the configured value
when it is "true" or "false", otherwise emit a verbosity-gated warning. -/
def icmBlock (cfg : RestPhysicsLists) : List Event :=
  if getPhysicsListOptionValue cfg "G4RadioactiveDecay" "ICM" "" == "true" then
    [Event.setICM true]
  else if getPhysicsListOptionValue cfg "G4RadioactiveDecay" "ICM" "" == "false" then
    [Event.setICM false]
  else if cfg.verboseLevel ≥ REST_Essential then
    [Event.warning "PhysicsList 'G4RadioactiveDecay' option 'ICM' not defined"]
  else []

/-- The ARM option handling (lines 255–262), same shape as ICM. -/
def armBlock (cfg : RestPhysicsLists) : List Event :=
  if getPhysicsListOptionValue cfg "G4RadioactiveDecay" "ARM" "" == "true" then
    [Event.setARM true]
  else if getPhysicsListOptionValue cfg "G4RadioactiveDecay" "ARM" "" == "false" then
    [Event.setARM false]
  else if cfg.verboseLevel ≥ REST_Essential then
    [Event.warning "PhysicsList 'G4RadioactiveDecay' option 'ARM' not defined"]
  else []

/-- The radioactive-decay options block (lines 235–263).  The guard in
the source is `if (fRestPhysicsLists->FindPhysicsList("G4RadioactiveDecay"))`
— the bare `Int` is used as a C++ truth value, so the block runs exactly
when the returned index is nonzero (also when the name is absent and the
call returns −1). -/
def radDecayOptionsBlock (cfg : RestPhysicsLists) : List Event :=
  if findPhysicsList cfg "G4RadioactiveDecay" ≠ 0 then
    [Event.setDecayTimeThreshold] ++ icmBlock cfg ++ armBlock cfg
  else []

/-- The fixed-name step-limiter loop (lines 268–285): for every particle
in the engine's particle iterator, attach the named limiter to `e-`,
`e+`, `mu-`, `mu+`.  `particles` is the ordered particle universe the
iterator yields. -/
def stepLimiterFixed (particles : List String) : List Event :=
  particles.flatMap (fun p =>
    (if p == "e-" then [Event.stepLimiter "e-" "e-Step"]
     else if p == "e+" then [Event.stepLimiter "e+" "e+Step"]
     else [])
    ++ (if p == "mu-" then [Event.stepLimiter "mu-" "mu-Step"]
        else if p == "mu+" then [Event.stepLimiter "mu+" "mu+Step"]
        else []))

/-- Decimal digit character. -/
def digitChar (n : Nat) : Char := Char.ofNat (48 + n)

/-- Decimal representation of a natural number below 1000 (the ion sweep
only needs mass numbers up to 120). -/
def natStr (n : Nat) : String :=
  if n < 10 then String.mk [digitChar n]
  else if n < 100 then String.mk [digitChar (n / 10), digitChar (n % 10)]
  else String.mk [digitChar (n / 100), digitChar (n / 10 % 10), digitChar (n % 10)]

/-- Element symbols for Z = 1…40 (index 0 unused). -/
def elementSymbols : List String :=
  ["?", "H", "He", "Li", "Be", "B", "C", "N", "O", "F", "Ne",
   "Na", "Mg", "Al", "Si", "P", "S", "Cl", "Ar", "K", "Ca",
   "Sc", "Ti", "V", "Cr", "Mn", "Fe", "Co", "Ni", "Cu", "Zn",
   "Ga", "Ge", "As", "Se", "Br", "Kr", "Rb", "Sr", "Y", "Zr"]

/-- `G4IonTable::GetIonName(Z, A)` for ground states.

Modelled from the spec: the engine's canonical ion-name lookup is
external; for a ground state it is the element symbol followed by the
mass number (e.g. "C14" for Z = 6, A = 14). -/
def ionName (Z A : Nat) : String :=
  (elementSymbols.getD Z "?") ++ natStr A

/-- The innermost loop of the ion sweep (lines 290–298) for one `(Z, A)`
pair: each element of the configured ion-step list equal to the ion's
canonical name yields one limiter attachment to `GetIon(Z, A, 0)`. -/
def ionPairEvents (cfg : RestPhysicsLists) (Z A : Nat) : List Event :=
  cfg.ionStepList.flatMap (fun n =>
    if n == ionName Z A then [Event.ionStepLimiter Z A] else [])

/-- The `(Z, A)` pairs of the ion sweep (lines 288–289), in loop order:
`Z` from 1 to 40, and for each `Z`, `A` from `2Z` to `3Z` inclusive. -/
def sweepPairs : List (Nat × Nat) :=
  (List.range' 1 40).flatMap (fun Z =>
    (List.range' (2 * Z) (Z + 1)).map (fun A => (Z, A)))

/-- The full ion step-limiter sweep (lines 288–300). -/
def ionStepEvents (cfg : RestPhysicsLists) : List Event :=
  sweepPairs.flatMap (fun p => ionPairEvents cfg p.1 p.2)

/-- `PhysicsList::ConstructProcess` (lines 185–301) as an ordered event
trace: transportation, EM block, decay, radioactive decay, hadronic
lists, radioactive-decay options, fixed-name step limiters, ion sweep. -/
def constructProcess (cfg : RestPhysicsLists) (st : PhysicsListState)
    (particles : List String) : List Event :=
  [Event.addTransportation]
  ++ (match st.fEmPhysicsList with
      | some emName => emBlock cfg emName
      | none => [])
  ++ (if st.fDecPhysicsList then [Event.decayProcesses] else [])
  ++ (if st.fRadDecPhysicsList then [Event.radDecayProcesses] else [])
  ++ st.fHadronPhys.map Event.hadronicProcesses
  ++ radDecayOptionsBlock cfg
  ++ stepLimiterFixed particles
  ++ ionStepEvents cfg

/-- The part of the `ConstructProcess` trace that precedes the two
step-limiter families (everything up to line 263). -/
def processPrelude (cfg : RestPhysicsLists) (st : PhysicsListState) : List Event :=
  [Event.addTransportation]
  ++ (match st.fEmPhysicsList with
      | some emName => emBlock cfg emName
      | none => [])
  ++ (if st.fDecPhysicsList then [Event.decayProcesses] else [])
  ++ (if st.fRadDecPhysicsList then [Event.radDecayProcesses] else [])
  ++ st.fHadronPhys.map Event.hadronicProcesses
  ++ radDecayOptionsBlock cfg

/-- The `(Z, A)` identities of the ion-limiter attachments of a trace,
in trace order. -/
def ionKeys (events : List Event) : List (Nat × Nat) :=
  events.filterMap (fun e =>
    match e with
    | Event.ionStepLimiter Z A => some (Z, A)
    | _ => none)

/-- Lexicographic "Z strictly first, then A" order on ion identities. -/
def lexLe (p q : Nat × Nat) : Prop :=
  p.1 < q.1 ∨ (p.1 = q.1 ∧ p.2 ≤ q.2)

/-- Strict lexicographic order on ion identities. -/
def lexLt (p q : Nat × Nat) : Prop :=
  p.1 < q.1 ∨ (p.1 = q.1 ∧ p.2 < q.2)

/-- A configuration with its production-cut energy window replaced. -/
def withWindow (cfg : RestPhysicsLists) (lo hi : ℚ) : RestPhysicsLists :=
  { cfg with minEnergyProductionCuts := lo, maxEnergyProductionCuts := hi }

/-- The state `InitializePhysicsLists` produces when no EM list is
enabled (the shape of the `Except.ok` payload in that case). -/
def noEmState (cfg : RestPhysicsLists) : PhysicsListState :=
  { fDecPhysicsList := enabled cfg "G4DecayPhysics"
    fRadDecPhysicsList := enabled cfg "G4RadioactiveDecayPhysics"
    fEmPhysicsList := none
    fHadronPhys := hadronicListNames.filter (enabled cfg)
    warnings := if REST_Essential ≤ cfg.verboseLevel then [noEmWarning] else [] }

/-- A baseline configuration: nothing enabled, Essential verbosity,
window 1–100 keV, no overrides. -/
def baseCfg : RestPhysicsLists :=
  { physicsLists := [], options := [], verboseLevel := 1, ionStepList := [],
    minEnergyProductionCuts := 1, maxEnergyProductionCuts := 100,
    cutForGamma := none, cutForElectron := none, cutForPositron := none,
    cutForMuon := none, cutForNeutron := none }

/-- A configuration enabling two Electromagnetic physics lists. -/
def twoEmCfg : RestPhysicsLists :=
  { baseCfg with physicsLists := ["G4EmLivermorePhysics", "G4EmPenelopePhysics"] }

/-- A configuration declaring a duplicated hadronic module: the pattern
`[A, B, A]` with `A` = `G4IonBinaryCascadePhysics` and
`B` = `G4HadronPhysicsQGSP_BIC_HP`. -/
def hadronicDupCfg : RestPhysicsLists :=
  { baseCfg with physicsLists :=
      ["G4IonBinaryCascadePhysics", "G4HadronPhysicsQGSP_BIC_HP",
       "G4IonBinaryCascadePhysics"] }

/-- The state `InitializePhysicsLists` produces for `hadronicDupCfg`. -/
def hadronicDupSt : PhysicsListState :=
  { fDecPhysicsList := false, fRadDecPhysicsList := false,
    fEmPhysicsList := none,
    fHadronPhys := ["G4HadronPhysicsQGSP_BIC_HP", "G4IonBinaryCascadePhysics"],
    warnings := [noEmWarning] }

/-- A configuration whose production-cut energy window is inverted
(min = 10 keV > max = 1 keV). -/
def invertedWindowCfg : RestPhysicsLists :=
  { baseCfg with minEnergyProductionCuts := 10, maxEnergyProductionCuts := 1 }

/-- A configuration listing the canonical name "C14" twice. -/
def dupIonCfg : RestPhysicsLists :=
  { baseCfg with ionStepList := ["C14", "C14"] }

/-- Whether an event is a fixed-name step-limiter attachment. -/
def isNamedLimiter : Event → Bool
  | Event.stepLimiter _ _ => true
  | _ => false

/-- Whether an event is an ion step-limiter attachment. -/
def isIonLimiter : Event → Bool
  | Event.ionStepLimiter _ _ => true
  | _ => false

/-- Whether a phase-2 event is a module `ConstructProcess` invocation. -/
def isConstructEvent : Event → Bool
  | Event.emProcesses _ => true
  | Event.decayProcesses => true
  | Event.radDecayProcesses => true
  | Event.hadronicProcesses _ => true
  | _ => false

/-- Whether a phase-1 event is a module `ConstructParticle` invocation
(the geantino pseudo-particle is not a module). -/
def isModuleParticleEvent : PEvent → Bool
  | PEvent.geantino => false
  | _ => true

/-- An empty `PhysicsList` state (no module selected). -/
def emptySt : PhysicsListState :=
  { fDecPhysicsList := false, fRadDecPhysicsList := false,
    fEmPhysicsList := none, fHadronPhys := [], warnings := [] }

/-- A configuration that does not contain "G4RadioactiveDecay". -/
def noRadDecayCfg : RestPhysicsLists :=
  { baseCfg with physicsLists := ["G4DecayPhysics"] }

/-- A configuration with "G4RadioactiveDecay" as its first entry. -/
def radDecayFirstCfg : RestPhysicsLists :=
  { baseCfg with physicsLists := ["G4RadioactiveDecay"] }

/-- A configuration setting the radioactive-decay ICM option to true. -/
def icmTrueCfg : RestPhysicsLists :=
  { baseCfg with options := [("G4RadioactiveDecay", "ICM", "true")] }

/-- A configuration setting the radioactive-decay ICM option to false. -/
def icmFalseCfg : RestPhysicsLists :=
  { baseCfg with options := [("G4RadioactiveDecay", "ICM", "false")] }

/-- The baseline configuration at Silent verbosity. -/
def silentCfg : RestPhysicsLists :=
  { baseCfg with verboseLevel := 0 }

/-- A configuration overriding all three EM options away from their
defaults for `G4EmLivermorePhysics`. -/
def emFlippedCfg : RestPhysicsLists :=
  { baseCfg with options :=
      [("G4EmLivermorePhysics", "pixe", "true"),
       ("G4EmLivermorePhysics", "fluo", "false"),
       ("G4EmLivermorePhysics", "auger", "false")] }

/-! ## Theorems -/

/-- With two distinct enabled EM names the match counter exceeds 1. -/
lemma one_lt_emResolve_snd (cfg : RestPhysicsLists) (a b : String)
    (ha : a ∈ emListNames) (hb : b ∈ emListNames) (hab : a ≠ b)
    (ea : enabled cfg a = true) (eb : enabled cfg b = true) :
    1 < (emResolve cfg).2 := by
  simp only [emListNames, List.mem_cons, List.not_mem_nil, or_false] at ha hb
  unfold emResolve emListNames emStep
  rcases ha with rfl | rfl | rfl | rfl <;> rcases hb with rfl | rfl | rfl | rfl <;>
    simp_all <;> split_ifs <;> simp_all

/-- C1 (amended): with at least two distinct Electromagnetic physics
lists enabled, `InitializePhysicsLists` terminates the process with exit
status 1 and the fixed diagnostic `emFatalMessage`; no
`PhysicsListState` is produced, so no assembly execution or engine
interaction can follow. -/
theorem em_exclusivity_fatal (cfg : RestPhysicsLists) (a b : String)
    (ha : a ∈ emListNames) (hb : b ∈ emListNames) (hab : a ≠ b)
    (ea : enabled cfg a = true) (eb : enabled cfg b = true) :
    initializePhysicsLists cfg =
      Except.error { exitCode := 1, message := emFatalMessage } := by
  have h := one_lt_emResolve_snd cfg a b ha hb hab ea eb
  unfold initializePhysicsLists
  simp [h]

/-- Witness for `em_exclusivity_fatal` at the concrete configuration
enabling `G4EmLivermorePhysics` and `G4EmPenelopePhysics`. -/
theorem em_exclusivity_fatal_witness :
    "G4EmLivermorePhysics" ∈ emListNames ∧ "G4EmPenelopePhysics" ∈ emListNames ∧
    "G4EmLivermorePhysics" ≠ "G4EmPenelopePhysics" ∧
    enabled twoEmCfg "G4EmLivermorePhysics" = true ∧
    enabled twoEmCfg "G4EmPenelopePhysics" = true ∧
    initializePhysicsLists twoEmCfg =
      Except.error { exitCode := 1, message := emFatalMessage } :=
  ⟨by decide, by decide, by decide, by decide, by decide,
    em_exclusivity_fatal twoEmCfg "G4EmLivermorePhysics" "G4EmPenelopePhysics"
      (by decide) (by decide) (by decide) (by decide) (by decide)⟩

/-- C1 counterexample: with two EM lists enabled the process aborts, but
the diagnostic is the fixed string "PhysicsList: More than 1 EM
PhysicsList enabled.", which names neither of the conflicting modules —
contradicting the claim that the diagnostic identifies (names) them. -/
theorem em_conflict_diagnostic_names_no_module :
    initializePhysicsLists twoEmCfg =
      Except.error { exitCode := 1, message := emFatalMessage } ∧
    mentions emFatalMessage "G4EmLivermorePhysics" = false ∧
    mentions emFatalMessage "G4EmPenelopePhysics" = false :=
  ⟨by rfl, by decide, by decide⟩

/-- C2: with zero Electromagnetic module names enabled, resolution
succeeds, the electromagnetic slot stays empty, and the "no EM physics"
warning is emitted exactly when the verbosity level is at or above the
Essential threshold. -/
theorem no_em_resolution_proceeds (cfg : RestPhysicsLists)
    (h : ∀ n ∈ emListNames, enabled cfg n = false) :
    ∃ st, initializePhysicsLists cfg = Except.ok st ∧
      st.fEmPhysicsList = none ∧
      (st.warnings = [noEmWarning] ↔ REST_Essential ≤ cfg.verboseLevel) ∧
      (st.warnings = [] ↔ cfg.verboseLevel < REST_Essential) := by
  have h1 := h "G4EmLivermorePhysics" (by simp [emListNames])
  have h2 := h "G4EmPenelopePhysics" (by simp [emListNames])
  have h3 := h "G4EmStandardPhysics_option3" (by simp [emListNames])
  have h4 := h "G4EmStandardPhysics_option4" (by simp [emListNames])
  have hEm : emResolve cfg = (none, 0) := by
    simp [emResolve, emListNames, emStep, h1, h2, h3, h4]
  refine ⟨noEmState cfg, ?_, rfl, ?_, ?_⟩
  · unfold initializePhysicsLists noEmState
    simp only [hEm, gt_iff_lt]
    by_cases hv : REST_Essential ≤ cfg.verboseLevel <;> simp [hv]
  · unfold noEmState
    by_cases hv : REST_Essential ≤ cfg.verboseLevel <;> simp [hv, noEmWarning]
  · unfold noEmState
    by_cases hv : REST_Essential ≤ cfg.verboseLevel
    · simp [hv, noEmWarning]
    · simp only [hv, if_false]
      simp only [List.nil_eq, true_iff]
      omega

/-- Witness for `no_em_resolution_proceeds` at the baseline
configuration (Essential verbosity, nothing enabled). -/
theorem no_em_resolution_proceeds_witness :
    ∃ st, initializePhysicsLists baseCfg = Except.ok st ∧
      st.fEmPhysicsList = none ∧
      (st.warnings = [noEmWarning] ↔ REST_Essential ≤ baseCfg.verboseLevel) ∧
      (st.warnings = [] ↔ baseCfg.verboseLevel < REST_Essential) :=
  no_em_resolution_proceeds baseCfg (by decide)

/-- C3 counterexample: resolving the module list `[A, B, A]` with
`A` = `G4IonBinaryCascadePhysics`, `B` = `G4HadronPhysicsQGSP_BIC_HP`
does not yield the hadronic sequence `[A, B, A]`: the duplicate is
dropped and the result follows the fixed registry order `[B, A]`. -/
theorem hadronic_duplicates_not_preserved :
    initializePhysicsLists hadronicDupCfg = Except.ok hadronicDupSt ∧
    hadronicDupSt.fHadronPhys =
      ["G4HadronPhysicsQGSP_BIC_HP", "G4IonBinaryCascadePhysics"] ∧
    hadronicDupSt.fHadronPhys ≠
      ["G4IonBinaryCascadePhysics", "G4HadronPhysicsQGSP_BIC_HP",
       "G4IonBinaryCascadePhysics"] :=
  ⟨by rfl, by rfl, by decide⟩

/-- C3 (amended): resolution selects hadronic modules by membership
only: the resulting sequence is exactly the fixed registry order
(`G4HadronPhysicsQGSP_BIC_HP`, `G4IonBinaryCascadePhysics`,
`G4HadronElasticPhysicsHP`, `G4NeutronTrackingCut`, `G4EmExtraPhysics`)
filtered to the names enabled anywhere in the configuration; each
appears at most once, so duplicates and declaration order in the
configuration do not influence the result. -/
theorem hadronic_membership_fixed_order (cfg : RestPhysicsLists)
    (st : PhysicsListState) (h : initializePhysicsLists cfg = Except.ok st) :
    st.fHadronPhys = hadronicListNames.filter (enabled cfg) ∧
    st.fHadronPhys.Nodup := by
  unfold initializePhysicsLists at h
  by_cases hgt : 1 < (emResolve cfg).2
  · simp [hgt] at h
  · simp only [gt_iff_lt, hgt, if_false, Except.ok.injEq] at h
    subst h
    exact ⟨rfl, List.Nodup.filter _ (by decide)⟩

/-- Witness for `hadronic_membership_fixed_order` at the duplicated
`[A, B, A]` configuration. -/
theorem hadronic_membership_fixed_order_witness :
    hadronicDupSt.fHadronPhys = hadronicListNames.filter (enabled hadronicDupCfg) ∧
    hadronicDupSt.fHadronPhys.Nodup :=
  hadronic_membership_fixed_order hadronicDupCfg hadronicDupSt (by rfl)

/-- C4 counterexample: with the inverted window (min = 10 keV,
max = 1 keV) the constructor does not fail: resolution succeeds and the
window is handed to the engine's `SetEnergyRange` exactly as configured. -/
theorem inverted_window_accepted :
    (physicsListCtor invertedWindowCfg).init.isOk = true ∧
    (physicsListCtor invertedWindowCfg).energyRange = (10, 1) ∧
    (1 : ℚ) < 10 :=
  ⟨by rfl, by rfl, by norm_num⟩

/-- C4 (amended): the production-cut energy window is forwarded to the
engine's `SetEnergyRange` exactly as configured, with no validation: the
window never influences whether resolution succeeds, and inverted or
non-positive windows are accepted silently. -/
theorem energy_window_forwarded (cfg : RestPhysicsLists) (lo hi : ℚ) :
    (physicsListCtor (withWindow cfg lo hi)).energyRange = (lo, hi) ∧
    (physicsListCtor (withWindow cfg lo hi)).init = (physicsListCtor cfg).init ∧
    (physicsListCtor cfg).defaultCut = defaultCutValue :=
  ⟨rfl, rfl, rfl⟩

/-- C5: cut assignment starts from the universal 0.1 mm default for
every species, then applies the per-species values in the fixed order
gamma, e-, e+, mu+, mu-, neutron, with the single muon value used for
both `mu+` and `mu-`; with no overrides every species cut is 0.1 mm, and
a gamma-only override changes only the gamma cut. -/
theorem cut_assignment_defaults_and_overrides
    (cfg cfgN cfgG : RestPhysicsLists) (g : ℚ)
    (hN : cfgN.cutForGamma = none ∧ cfgN.cutForElectron = none ∧
      cfgN.cutForPositron = none ∧ cfgN.cutForMuon = none ∧
      cfgN.cutForNeutron = none)
    (hG : cfgG.cutForGamma = some g ∧ cfgG.cutForElectron = none ∧
      cfgG.cutForPositron = none ∧ cfgG.cutForMuon = none ∧
      cfgG.cutForNeutron = none) :
    (setCutValueCalls cfg).map Prod.fst =
      ["gamma", "e-", "e+", "mu+", "mu-", "neutron"] ∧
    cutTable cfg "mu+" = cutTable cfg "mu-" ∧
    (∀ s, cutTable cfgN s = defaultCutValue) ∧
    cutTable cfgG "gamma" = g ∧
    (∀ s, s ≠ "gamma" → cutTable cfgG s = defaultCutValue) := by
  obtain ⟨n1, n2, n3, n4, n5⟩ := hN
  obtain ⟨g1, g2, g3, g4, g5⟩ := hG
  refine ⟨rfl, by simp [cutTable, setCutValueCalls], ?_, ?_, ?_⟩
  · intro s
    simp only [cutTable, setCutValueCalls, List.foldl_cons, List.foldl_nil]
    split_ifs <;>
      simp [getCutForNeutron, getCutForMuon, getCutForPositron,
        getCutForElectron, getCutForGamma, n1, n2, n3, n4, n5]
  · simp [cutTable, setCutValueCalls, getCutForGamma, g1]
  · intro s hs
    simp only [cutTable, setCutValueCalls, List.foldl_cons, List.foldl_nil]
    split_ifs with h1 h2 h3 h4 h5 h6
    · simp [getCutForNeutron, g5]
    · simp [getCutForMuon, g4]
    · simp [getCutForMuon, g4]
    · simp [getCutForPositron, g3]
    · simp [getCutForElectron, g2]
    · exact absurd (by simpa using h6) hs
    · rfl

/-- Witness for `cut_assignment_defaults_and_overrides`: the baseline
configuration with no overrides and the same configuration with a 1 mm
gamma override. -/
theorem cut_assignment_defaults_and_overrides_witness :
    (setCutValueCalls baseCfg).map Prod.fst =
      ["gamma", "e-", "e+", "mu+", "mu-", "neutron"] ∧
    cutTable baseCfg "mu+" = cutTable baseCfg "mu-" ∧
    (∀ s, cutTable baseCfg s = defaultCutValue) ∧
    cutTable { baseCfg with cutForGamma := some 1 } "gamma" = 1 ∧
    (∀ s, s ≠ "gamma" →
      cutTable { baseCfg with cutForGamma := some 1 } s = defaultCutValue) :=
  cut_assignment_defaults_and_overrides baseCfg baseCfg
    { baseCfg with cutForGamma := some 1 } 1
    ⟨rfl, rfl, rfl, rfl, rfl⟩ ⟨rfl, rfl, rfl, rfl, rfl⟩

/-- The sweep pairs are exactly the window Z ∈ [1,40], A ∈ [2Z,3Z]. -/
lemma mem_sweepPairs (Z A : Nat) :
    (Z, A) ∈ sweepPairs ↔ 1 ≤ Z ∧ Z ≤ 40 ∧ 2 * Z ≤ A ∧ A ≤ 3 * Z := by
  simp only [sweepPairs, List.mem_flatMap, List.mem_map, List.mem_range'_1,
    Prod.mk.injEq]
  constructor
  · rintro ⟨z, hz, a, ha, rfl, rfl⟩
    omega
  · intro h
    exact ⟨Z, by omega, A, by omega, rfl, rfl⟩

/-- Every event the inner ion loop emits for `(Z, A)` is the limiter
attachment for that exact pair. -/
lemma mem_ionPairEvents {cfg : RestPhysicsLists} {Z A : Nat} {e : Event}
    (h : e ∈ ionPairEvents cfg Z A) : e = Event.ionStepLimiter Z A := by
  simp only [ionPairEvents, List.mem_flatMap] at h
  obtain ⟨n, hn, he⟩ := h
  by_cases hc : (n == ionName Z A) = true
  · simpa [hc] using he
  · simp [hc] at he

/-- The inner ion loop emits an attachment for `(Z, A)` exactly when the
canonical name of `(Z, A)` appears in the configured list. -/
lemma self_mem_ionPairEvents (cfg : RestPhysicsLists) (Z A : Nat) :
    Event.ionStepLimiter Z A ∈ ionPairEvents cfg Z A ↔
      ionName Z A ∈ cfg.ionStepList := by
  simp only [ionPairEvents, List.mem_flatMap]
  constructor
  · rintro ⟨n, hn, he⟩
    by_cases hc : (n == ionName Z A) = true
    · have hn' : n = ionName Z A := by simpa using hc
      rw [hn'] at hn
      exact hn
    · simp [hc] at he
  · intro h
    exact ⟨ionName Z A, h, by simp⟩

/-- C6: the ion step-limiter sweep is the closed enumeration Z ∈ [1,40],
A ∈ [2Z,3Z]: an "ionStep" limiter is attached for `(Z, A)` exactly when
the canonical ion name is in the configured list and `(Z, A)` lies in
the window; in particular "C14" (Z = 6, A = 14) is reachable while
"C20" (Z = 6, A = 20, outside [12,18]) is not. -/
theorem ion_sweep_closed_enumeration (cfg : RestPhysicsLists) (Z A : Nat) :
    (Event.ionStepLimiter Z A ∈ ionStepEvents cfg ↔
      ionName Z A ∈ cfg.ionStepList ∧
        1 ≤ Z ∧ Z ≤ 40 ∧ 2 * Z ≤ A ∧ A ≤ 3 * Z) ∧
    ionName 6 14 = "C14" ∧ ionName 6 20 = "C20" := by
  refine ⟨?_, by decide, by decide⟩
  constructor
  · intro h
    simp only [ionStepEvents, List.mem_flatMap] at h
    obtain ⟨p, hp, he⟩ := h
    obtain ⟨pz, pa⟩ := p
    have heq := mem_ionPairEvents he
    injection heq with h1 h2
    subst h1
    subst h2
    exact ⟨(self_mem_ionPairEvents cfg Z A).mp he, (mem_sweepPairs Z A).mp hp⟩
  · rintro ⟨hname, h1, h2, h3, h4⟩
    simp only [ionStepEvents, List.mem_flatMap]
    exact ⟨(Z, A), (mem_sweepPairs Z A).mpr ⟨h1, h2, h3, h4⟩,
      (self_mem_ionPairEvents cfg Z A).mpr hname⟩

/-- Each occurrence of the canonical name in the configured list
contributes exactly one attachment for its own pair. -/
lemma count_ionPairEvents_self (l : List String) (Z A : Nat) :
    (l.flatMap (fun n =>
      if n == ionName Z A then [Event.ionStepLimiter Z A] else [])).count
        (Event.ionStepLimiter Z A) = l.count (ionName Z A) := by
  induction l with
  | nil => rfl
  | cons x xs ih =>
    simp only [List.flatMap_cons, List.count_append, ih, List.count_cons]
    by_cases hc : (x == ionName Z A) = true
    · simp [hc]
      omega
    · simp [hc]

/-- The inner loop for a pair other than `(Z, A)` contributes no
attachment for `(Z, A)`. -/
lemma count_ionPairEvents_ne (cfg : RestPhysicsLists) {p : Nat × Nat}
    {Z A : Nat} (h : p ≠ (Z, A)) :
    (ionPairEvents cfg p.1 p.2).count (Event.ionStepLimiter Z A) = 0 := by
  rw [List.count_eq_zero]
  intro hc
  have heq := mem_ionPairEvents hc
  injection heq with h1 h2
  exact h (Prod.ext h1.symm h2.symm)

/-- The sweep visits each `(Z, A)` pair at most once. -/
lemma sweepPairs_nodup : sweepPairs.Nodup := by
  rw [sweepPairs, List.nodup_flatMap]
  refine ⟨?_, ?_⟩
  · intro z _
    exact (List.nodup_range' _ _).map (fun a b hab => by simpa using hab)
  · have hlt := List.pairwise_lt_range' 1 40
    refine hlt.imp ?_
    intro a b hab x hx1 hx2
    simp only [List.mem_map] at hx1 hx2
    obtain ⟨a1, _, rfl⟩ := hx1
    obtain ⟨a2, _, h2⟩ := hx2
    have : a = b := by
      have := congrArg Prod.fst h2
      simpa using this.symm
    omega

/-- Summing a function that vanishes away from a single element of a
duplicate-free list yields its value there. -/
lemma sum_map_eq_of_nodup {α : Type} [DecidableEq α] (l : List α) (a : α)
    (f : α → Nat) (hn : l.Nodup) (ha : a ∈ l)
    (h0 : ∀ b ∈ l, b ≠ a → f b = 0) : (l.map f).sum = f a := by
  induction l with
  | nil => cases ha
  | cons x xs ih =>
    simp only [List.map_cons, List.sum_cons]
    rcases List.mem_cons.mp ha with rfl | ha'
    · have hz : (xs.map f).sum = 0 := by
        apply List.sum_eq_zero
        intro y hy
        obtain ⟨b, hb, rfl⟩ := List.mem_map.mp hy
        exact h0 b (List.mem_cons_of_mem _ hb)
          (fun hba => (List.nodup_cons.mp hn).1 (hba ▸ hb))
      omega
    · have hx : f x = 0 := by
        refine h0 x (List.mem_cons_self x xs) (fun hxa => ?_)
        exact (List.nodup_cons.mp hn).1 (hxa ▸ ha')
      rw [hx, ih (List.nodup_cons.mp hn).2 ha'
        (fun b hb hba => h0 b (List.mem_cons_of_mem _ hb) hba)]
      omega

/-- C10: for a pair `(Z, A)` inside the sweep window, the ion loop
attaches one "ionStep" limiter per occurrence of the pair's canonical
name in the configured ion-step list: a name listed k times yields
exactly k attachments for that ion. -/
theorem ion_step_attachments_count_occurrences (cfg : RestPhysicsLists)
    (Z A : Nat) (h1 : 1 ≤ Z) (h2 : Z ≤ 40) (h3 : 2 * Z ≤ A)
    (h4 : A ≤ 3 * Z) :
    (ionStepEvents cfg).count (Event.ionStepLimiter Z A) =
      cfg.ionStepList.count (ionName Z A) := by
  rw [ionStepEvents, List.count_flatMap]
  have hsum := sum_map_eq_of_nodup sweepPairs (Z, A)
    (fun p => (ionPairEvents cfg p.1 p.2).count (Event.ionStepLimiter Z A))
    sweepPairs_nodup ((mem_sweepPairs Z A).mpr ⟨h1, h2, h3, h4⟩)
    (fun b _ hb => count_ionPairEvents_ne cfg hb)
  rw [← count_ionPairEvents_self cfg.ionStepList Z A]
  simpa [Function.comp, ionPairEvents] using hsum

/-- Witness for `ion_step_attachments_count_occurrences`: the name
"C14", listed twice, produces exactly two attachments for (6, 14). -/
theorem ion_step_attachments_count_occurrences_witness :
    1 ≤ 6 ∧ 6 ≤ 40 ∧ 2 * 6 ≤ 14 ∧ 14 ≤ 3 * 6 ∧
    (ionStepEvents dupIonCfg).count (Event.ionStepLimiter 6 14) = 2 :=
  ⟨by decide, by decide, by decide, by decide,
    (ion_step_attachments_count_occurrences dupIonCfg 6 14
      (by decide) (by decide) (by decide) (by decide)).trans (by decide)⟩

/-- `Pairwise` for a concatenation of blocks: each block pairwise, and
every pair of blocks related elementwise. -/
lemma pairwise_flatMap {α β : Type} {R : β → β → Prop} {f : α → List β}
    {l : List α} (h1 : ∀ a ∈ l, (f a).Pairwise R)
    (h2 : l.Pairwise (fun a b => ∀ x ∈ f a, ∀ y ∈ f b, R x y)) :
    (l.flatMap f).Pairwise R := by
  induction l with
  | nil => simp
  | cons x xs ih =>
    simp only [List.flatMap_cons]
    rw [List.pairwise_append]
    refine ⟨h1 x (List.mem_cons_self x xs),
      ih (fun a ha => h1 a (List.mem_cons_of_mem _ ha))
        (List.pairwise_cons.mp h2).2, ?_⟩
    intro a ha b hb
    obtain ⟨c, hc, hbc⟩ := List.mem_flatMap.mp hb
    exact (List.pairwise_cons.mp h2).1 c hc a ha b hbc

/-- A list whose elements are all equal is pairwise related by any
relation that is reflexive at that element. -/
lemma pairwise_of_all_eq {α : Type} {R : α → α → Prop} {l : List α} {a : α}
    (h : ∀ x ∈ l, x = a) (hr : R a a) : l.Pairwise R := by
  induction l with
  | nil => exact List.Pairwise.nil
  | cons x xs ih =>
    refine List.Pairwise.cons ?_ (ih (fun y hy => h y (List.mem_cons_of_mem _ hy)))
    intro y hy
    rw [h x (List.mem_cons_self x xs), h y (List.mem_cons_of_mem _ hy)]
    exact hr

/-- The sweep pairs are emitted in strictly increasing lexicographic
order: increasing Z, and increasing A within a Z. -/
lemma sweepPairs_sorted : sweepPairs.Pairwise lexLt := by
  rw [sweepPairs]
  apply pairwise_flatMap
  · intro z _
    rw [List.pairwise_map]
    exact (List.pairwise_lt_range' _ _).imp (fun hab => Or.inr ⟨rfl, hab⟩)
  · refine (List.pairwise_lt_range' 1 40).imp ?_
    intro a b hab x hx y hy
    simp only [List.mem_map] at hx hy
    obtain ⟨_, _, rfl⟩ := hx
    obtain ⟨_, _, rfl⟩ := hy
    exact Or.inl hab

/-- Every ion key extracted from the inner loop of pair `p` is `p`. -/
lemma ionKeys_ionPairEvents {cfg : RestPhysicsLists} {p : Nat × Nat}
    {x : Nat × Nat}
    (h : x ∈ ionKeys (ionPairEvents cfg p.1 p.2)) : x = p := by
  simp only [ionKeys, List.mem_filterMap] at h
  obtain ⟨e, he, hx⟩ := h
  rw [mem_ionPairEvents he] at hx
  simp only [Option.some.injEq] at hx
  rw [← hx]

/-- The ion attachments of the sweep are ordered by increasing Z, then
increasing A. -/
lemma ionKeys_sweep_sorted (cfg : RestPhysicsLists) :
    (ionKeys (ionStepEvents cfg)).Pairwise lexLe := by
  rw [ionStepEvents, ionKeys, List.filterMap_flatMap]
  apply pairwise_flatMap
  · intro p _
    refine pairwise_of_all_eq (fun x hx => ionKeys_ionPairEvents hx) ?_
    exact Or.inr ⟨rfl, le_refl _⟩
  · refine sweepPairs_sorted.imp ?_
    intro a b hab x hx y hy
    rw [ionKeys_ionPairEvents hx, ionKeys_ionPairEvents hy]
    rcases hab with h | ⟨h1, h2⟩
    · exact Or.inl h
    · exact Or.inr ⟨h1, Nat.le_of_lt h2⟩

/-- The prelude of `ConstructProcess` (everything before the two
step-limiter loops) contains no limiter attachment. -/
lemma processPrelude_no_limiters (cfg : RestPhysicsLists)
    (st : PhysicsListState) :
    ∀ e ∈ processPrelude cfg st,
      isNamedLimiter e = false ∧ isIonLimiter e = false := by
  unfold processPrelude
  rw [List.forall_mem_append]
  refine ⟨?_, ?_⟩
  rotate_left
  · unfold radDecayOptionsBlock icmBlock armBlock
    split_ifs <;> simp [isNamedLimiter, isIonLimiter]
  rw [List.forall_mem_append]
  refine ⟨?_, ?_⟩
  rotate_left
  · intro e he
    obtain ⟨n, _, rfl⟩ := List.mem_map.mp he
    exact ⟨rfl, rfl⟩
  rw [List.forall_mem_append]
  refine ⟨?_, ?_⟩
  rotate_left
  · split_ifs <;> simp [isNamedLimiter, isIonLimiter]
  rw [List.forall_mem_append]
  refine ⟨?_, ?_⟩
  rotate_left
  · split_ifs <;> simp [isNamedLimiter, isIonLimiter]
  rw [List.forall_mem_append]
  refine ⟨?_, ?_⟩
  · simp [isNamedLimiter, isIonLimiter]
  · cases st.fEmPhysicsList with
    | none => simp
    | some emName => simp [emBlock, isNamedLimiter, isIonLimiter]

/-- Every event of the fixed-name loop is a named limiter attachment. -/
lemma stepLimiterFixed_all_named (particles : List String) :
    ∀ e ∈ stepLimiterFixed particles, isNamedLimiter e = true := by
  intro e he
  simp only [stepLimiterFixed, List.mem_flatMap] at he
  obtain ⟨p, _, hm⟩ := he
  rw [List.mem_append] at hm
  rcases hm with hm | hm <;> split_ifs at hm <;> simp_all [isNamedLimiter]

/-- Every event of the ion sweep is an ion limiter attachment. -/
lemma ionStepEvents_all_ion (cfg : RestPhysicsLists) :
    ∀ e ∈ ionStepEvents cfg, isIonLimiter e = true := by
  intro e he
  simp only [ionStepEvents, List.mem_flatMap] at he
  obtain ⟨p, _, hm⟩ := he
  rw [mem_ionPairEvents hm]
  rfl

/-- The fixed-name loop emits the `e-` limiter exactly when `e-` exists
in the particle universe. -/
lemma mem_stepLimiterFixed_eMinus (particles : List String) :
    Event.stepLimiter "e-" "e-Step" ∈ stepLimiterFixed particles ↔
      "e-" ∈ particles := by
  simp only [stepLimiterFixed, List.mem_flatMap, List.mem_append]
  constructor
  · rintro ⟨p, hp, hm | hm⟩ <;> split_ifs at hm <;> simp_all
  · intro h
    exact ⟨"e-", h, by simp⟩

/-- The fixed-name loop emits the `e+` limiter exactly when `e+` exists
in the particle universe. -/
lemma mem_stepLimiterFixed_ePlus (particles : List String) :
    Event.stepLimiter "e+" "e+Step" ∈ stepLimiterFixed particles ↔
      "e+" ∈ particles := by
  simp only [stepLimiterFixed, List.mem_flatMap, List.mem_append]
  constructor
  · rintro ⟨p, hp, hm | hm⟩ <;> split_ifs at hm <;> simp_all
  · intro h
    exact ⟨"e+", h, by simp⟩

/-- The fixed-name loop emits the `mu-` limiter exactly when `mu-`
exists in the particle universe. -/
lemma mem_stepLimiterFixed_muMinus (particles : List String) :
    Event.stepLimiter "mu-" "mu-Step" ∈ stepLimiterFixed particles ↔
      "mu-" ∈ particles := by
  simp only [stepLimiterFixed, List.mem_flatMap, List.mem_append]
  constructor
  · rintro ⟨p, hp, hm | hm⟩ <;> split_ifs at hm <;> simp_all
  · intro h
    exact ⟨"mu-", h, by simp⟩

/-- The fixed-name loop emits the `mu+` limiter exactly when `mu+`
exists in the particle universe. -/
lemma mem_stepLimiterFixed_muPlus (particles : List String) :
    Event.stepLimiter "mu+" "mu+Step" ∈ stepLimiterFixed particles ↔
      "mu+" ∈ particles := by
  simp only [stepLimiterFixed, List.mem_flatMap, List.mem_append]
  constructor
  · rintro ⟨p, hp, hm | hm⟩ <;> split_ifs at hm <;> simp_all
  · intro h
    exact ⟨"mu+", h, by simp⟩

/-- C7: the step-limiter plan contains the fixed-name entries for each
of e-, e+, mu-, mu+ exactly when the species exists in the particle
universe, independent of configuration content (the fixed block does not
read the configuration at all); all fixed-name attachments form a block
that precedes every ion attachment, and the ion attachments are emitted
in order of increasing Z, then increasing A. -/
theorem step_limiter_plan_structure (cfg : RestPhysicsLists)
    (st : PhysicsListState) (particles : List String) :
    constructProcess cfg st particles =
      processPrelude cfg st ++ (stepLimiterFixed particles ++ ionStepEvents cfg) ∧
    ("e-" ∈ particles ↔
      Event.stepLimiter "e-" "e-Step" ∈ stepLimiterFixed particles) ∧
    ("e+" ∈ particles ↔
      Event.stepLimiter "e+" "e+Step" ∈ stepLimiterFixed particles) ∧
    ("mu-" ∈ particles ↔
      Event.stepLimiter "mu-" "mu-Step" ∈ stepLimiterFixed particles) ∧
    ("mu+" ∈ particles ↔
      Event.stepLimiter "mu+" "mu+Step" ∈ stepLimiterFixed particles) ∧
    (∀ e ∈ processPrelude cfg st,
      isNamedLimiter e = false ∧ isIonLimiter e = false) ∧
    (∀ e ∈ stepLimiterFixed particles, isNamedLimiter e = true) ∧
    (∀ e ∈ ionStepEvents cfg, isIonLimiter e = true) ∧
    (ionKeys (ionStepEvents cfg)).Pairwise lexLe := by
  refine ⟨?_, (mem_stepLimiterFixed_eMinus particles).symm,
    (mem_stepLimiterFixed_ePlus particles).symm,
    (mem_stepLimiterFixed_muMinus particles).symm,
    (mem_stepLimiterFixed_muPlus particles).symm,
    processPrelude_no_limiters cfg st,
    stepLimiterFixed_all_named particles,
    ionStepEvents_all_ion cfg,
    ionKeys_sweep_sorted cfg⟩
  simp [constructProcess, processPrelude, List.append_assoc]

set_option maxRecDepth 8000 in
/-- C8: the guard of the radioactive-decay options block is
`if (FindPhysicsList("G4RadioactiveDecay"))` — the bare index used as a
C++ truth value.  When the module is absent the call returns −1, which
is truthy, so the time threshold and the ICM/ARM handling run although
the module is not in the configuration; conversely, when the module sits
at index 0 the guard is 0 = false and the block is skipped.  The flag
handling itself matches the claim: "true"/"false" are applied, an unset
flag yields a verbosity-gated warning and is never an error. -/
theorem rad_decay_options_guard_inverted :
    ("G4RadioactiveDecay" ∉ noRadDecayCfg.physicsLists ∧
      Event.setDecayTimeThreshold ∈ constructProcess noRadDecayCfg emptySt []) ∧
    ("G4RadioactiveDecay" ∈ radDecayFirstCfg.physicsLists ∧
      Event.setDecayTimeThreshold ∉ constructProcess radDecayFirstCfg emptySt []) ∧
    icmBlock icmTrueCfg = [Event.setICM true] ∧
    icmBlock icmFalseCfg = [Event.setICM false] ∧
    icmBlock baseCfg =
      [Event.warning "PhysicsList 'G4RadioactiveDecay' option 'ICM' not defined"] ∧
    icmBlock silentCfg = [] ∧
    armBlock icmTrueCfg =
      [Event.warning "PhysicsList 'G4RadioactiveDecay' option 'ARM' not defined"] := by
  exact ⟨⟨by decide, by decide⟩, ⟨by decide, by decide⟩,
    by decide, by decide, by decide, by decide, by decide⟩

/-- A named-limiter event is not a module construction event. -/
lemma isConstructEvent_of_named {e : Event} (h : isNamedLimiter e = true) :
    isConstructEvent e = false := by
  cases e <;> simp_all [isNamedLimiter, isConstructEvent]

/-- An ion-limiter event is not a module construction event. -/
lemma isConstructEvent_of_ion {e : Event} (h : isIonLimiter e = true) :
    isConstructEvent e = false := by
  cases e <;> simp_all [isIonLimiter, isConstructEvent]

/-- The EM block contains exactly one module construction event: the EM
module's `ConstructProcess`, as its first event. -/
lemma emBlock_filter_construct (cfg : RestPhysicsLists) (name : String) :
    (emBlock cfg name).filter isConstructEvent = [Event.emProcesses name] := by
  simp [emBlock, isConstructEvent, List.filter]

/-- The radioactive-decay options block contains no module construction
event. -/
lemma radDecayOptionsBlock_filter_construct (cfg : RestPhysicsLists) :
    (radDecayOptionsBlock cfg).filter isConstructEvent = [] := by
  unfold radDecayOptionsBlock icmBlock armBlock
  split_ifs <;> simp [isConstructEvent, List.filter]

/-- The fixed-name limiter loop contains no module construction event. -/
lemma stepLimiterFixed_filter_construct (particles : List String) :
    (stepLimiterFixed particles).filter isConstructEvent = [] := by
  rw [List.filter_eq_nil_iff]
  intro e he
  simp [isConstructEvent_of_named (stepLimiterFixed_all_named particles e he)]

/-- The ion sweep contains no module construction event. -/
lemma ionStepEvents_filter_construct (cfg : RestPhysicsLists) :
    (ionStepEvents cfg).filter isConstructEvent = [] := by
  rw [List.filter_eq_nil_iff]
  intro e he
  simp [isConstructEvent_of_ion (ionStepEvents_all_ion cfg e he)]

/-- The two step-limiter blocks at the end of `ConstructProcess`
contain no module `ConstructProcess` invocation. -/
lemma limiter_suffix_no_construct (cfg : RestPhysicsLists)
    (particles : List String) :
    ∀ e ∈ stepLimiterFixed particles ++ ionStepEvents cfg,
      isConstructEvent e = false := by
  rw [List.forall_mem_append]
  refine ⟨?_, ?_⟩
  · intro e he
    exact isConstructEvent_of_named (stepLimiterFixed_all_named particles e he)
  · intro e he
    exact isConstructEvent_of_ion (ionStepEvents_all_ion cfg e he)

/-- In a trace split into a prelude without limiter events and a suffix
without construction events, every construction event sits at a strictly
smaller index than every limiter event. -/
lemma append_construct_before_limiter {pre suf : List Event}
    (hpre : ∀ e ∈ pre, isNamedLimiter e = false ∧ isIonLimiter e = false)
    (hsuf : ∀ e ∈ suf, isConstructEvent e = false)
    {i j : Nat} {e1 e2 : Event}
    (h1 : (pre ++ suf)[i]? = some e1)
    (h2 : (pre ++ suf)[j]? = some e2)
    (hc : isConstructEvent e1 = true)
    (hl : isNamedLimiter e2 = true ∨ isIonLimiter e2 = true) : i < j := by
  have hi' : i < pre.length := by
    by_contra hle
    push_neg at hle
    rw [List.getElem?_append_right hle] at h1
    obtain ⟨hb, rfl⟩ := List.getElem?_eq_some.mp h1
    have := hsuf _ (List.getElem_mem hb)
    rw [hc] at this
    cases this
  have hj' : pre.length ≤ j := by
    by_contra hlt
    push_neg at hlt
    rw [List.getElem?_append_left hlt] at h2
    obtain ⟨hb, rfl⟩ := List.getElem?_eq_some.mp h2
    obtain ⟨hn, hio⟩ := hpre _ (List.getElem_mem hb)
    rcases hl with h | h
    · rw [h] at hn
      cases hn
    · rw [h] at hio
      cases hio
  omega

/-- C9: assembly execution order.  Phase 1 constructs particles in the
order Decay, Electromagnetic, RadioactiveDecay, then the hadronic
sequence.  Phase 2 starts with transport setup unconditionally, and its
module `ConstructProcess` invocations occur in the order
Electromagnetic, Decay, RadioactiveDecay, then the hadronic sequence,
with the step-limiter attachments only after all of them; the EM options
default to pixe = false, fluo = true, auger = true and each is
overridable through the module's option keys. -/
theorem assembly_two_phase_order (cfg cfgD cfgO : RestPhysicsLists)
    (st : PhysicsListState) (particles : List String) (emName : String)
    (hD : cfgD.options = [])
    (hO : cfgO.options =
      [(emName, "pixe", "true"), (emName, "fluo", "false"),
       (emName, "auger", "false")]) :
    (constructParticle st).filter isModuleParticleEvent =
      (if st.fDecPhysicsList then [PEvent.decayParticles] else [])
      ++ (match st.fEmPhysicsList with
          | some name => [PEvent.emParticles name]
          | none => [])
      ++ (if st.fRadDecPhysicsList then [PEvent.radDecayParticles] else [])
      ++ st.fHadronPhys.map PEvent.hadronicParticles ∧
    (constructProcess cfg st particles).head? = some Event.addTransportation ∧
    (constructProcess cfg st particles).filter isConstructEvent =
      (match st.fEmPhysicsList with
       | some name => [Event.emProcesses name]
       | none => [])
      ++ (if st.fDecPhysicsList then [Event.decayProcesses] else [])
      ++ (if st.fRadDecPhysicsList then [Event.radDecayProcesses] else [])
      ++ st.fHadronPhys.map Event.hadronicProcesses ∧
    Event.applyCommand "/process/em/pixe false" ∈ emBlock cfgD emName ∧
    Event.applyCommand "/process/em/fluo true" ∈ emBlock cfgD emName ∧
    Event.applyCommand "/process/em/auger true" ∈ emBlock cfgD emName ∧
    Event.applyCommand "/process/em/pixe true" ∈ emBlock cfgO emName ∧
    Event.applyCommand "/process/em/fluo false" ∈ emBlock cfgO emName ∧
    Event.applyCommand "/process/em/auger false" ∈ emBlock cfgO emName ∧
    (∀ (i j : Nat) (e1 e2 : Event),
      (constructProcess cfg st particles)[i]? = some e1 →
      (constructProcess cfg st particles)[j]? = some e2 →
      isConstructEvent e1 = true →
      (isNamedLimiter e2 = true ∨ isIonLimiter e2 = true) → i < j) := by
  refine ⟨?_, ?_, ?_, ?_, ?_, ?_, ?_, ?_, ?_, ?_⟩
  · rw [constructParticle]
    simp only [List.filter_append]
    rcases st.fEmPhysicsList with _ | name <;>
      split_ifs <;>
        simp [isModuleParticleEvent, List.filter, List.filter_map,
          Function.comp] <;>
      exact congrArg _ (List.filter_eq_self.mpr fun a _ => rfl)
  · rw [constructProcess]
    rfl
  · rw [constructProcess]
    simp only [List.filter_append, emBlock_filter_construct,
      radDecayOptionsBlock_filter_construct, stepLimiterFixed_filter_construct,
      ionStepEvents_filter_construct, List.append_nil]
    rcases st.fEmPhysicsList with _ | name <;>
      split_ifs <;>
        simp [isConstructEvent, List.filter, List.filter_map, Function.comp,
          emBlock_filter_construct] <;>
      exact congrArg _ (List.filter_eq_self.mpr fun a _ => rfl)
  · simp [emBlock, getPhysicsListOptionValue, hD, StringToBool]
  · simp [emBlock, getPhysicsListOptionValue, hD, StringToBool]
  · simp [emBlock, getPhysicsListOptionValue, hD, StringToBool]
  · simp [emBlock, getPhysicsListOptionValue, hO, StringToBool]
  · simp [emBlock, getPhysicsListOptionValue, hO, StringToBool]
  · simp [emBlock, getPhysicsListOptionValue, hO, StringToBool]
  · intro i j e1 e2 h1 h2 hc hl
    have hdecomp : constructProcess cfg st particles =
        processPrelude cfg st ++
          (stepLimiterFixed particles ++ ionStepEvents cfg) := by
      simp [constructProcess, processPrelude, List.append_assoc]
    rw [hdecomp] at h1 h2
    exact append_construct_before_limiter (processPrelude_no_limiters cfg st)
      (limiter_suffix_no_construct cfg particles) h1 h2 hc hl

/-- Witness for `assembly_two_phase_order` at a concrete state with all
module kinds present, the default (empty) option set and the flipped
option set for `G4EmLivermorePhysics`. -/
theorem assembly_two_phase_order_witness :
    ((constructParticle
        { fDecPhysicsList := true, fRadDecPhysicsList := true,
          fEmPhysicsList := some "G4EmLivermorePhysics",
          fHadronPhys := ["G4NeutronTrackingCut"],
          warnings := [] }).filter isModuleParticleEvent =
      [PEvent.decayParticles, PEvent.emParticles "G4EmLivermorePhysics",
       PEvent.radDecayParticles,
       PEvent.hadronicParticles "G4NeutronTrackingCut"]) ∧
    Event.applyCommand "/process/em/pixe false" ∈
      emBlock baseCfg "G4EmLivermorePhysics" ∧
    Event.applyCommand "/process/em/pixe true" ∈
      emBlock emFlippedCfg "G4EmLivermorePhysics" := by
  have h := assembly_two_phase_order baseCfg baseCfg emFlippedCfg
    { fDecPhysicsList := true, fRadDecPhysicsList := true,
      fEmPhysicsList := some "G4EmLivermorePhysics",
      fHadronPhys := ["G4NeutronTrackingCut"], warnings := [] }
    [] "G4EmLivermorePhysics" rfl rfl
  exact ⟨h.1, h.2.2.2.1, h.2.2.2.2.2.2.1⟩

end RestG4
